import Mathlib

/-
  Verification development for the spicetrader repository.

  Each Python function referenced by the claims is shallowly embedded as a
  computable Lean definition over exact rationals (Python floats/Decimals are
  modelled by ℚ, machine ints by ℤ/ℕ, None by Option, exceptions by Except).
-/

namespace SpiceTrader

/-! ## Position sizing — src/position_sizing.py -/

/-- Python's binary `min` on rationals (ties keep the first argument). -/
def pymin (a b : ℚ) : ℚ := if a ≤ b then a else b

/-- Python's binary `max` on rationals (ties keep the first argument). -/
def pymax (a b : ℚ) : ℚ := if b ≤ a then a else b

/-- Embedding of `equal_split_quote_allocation` (src/position_sizing.py).
Percentages are clamped to [0,100]; degenerate inputs return 0. -/
def equal_split_quote_allocation (quote_balance : ℚ) (num_coins : ℤ)
    (fee_buffer_pct : ℚ) (exposure_pct : ℚ) : ℚ :=
  if quote_balance ≤ 0 then 0
  else if num_coins ≤ 0 then 0
  else
    let exposure := pymax 0 (pymin exposure_pct 100)
    let feeBuf := pymax 0 (pymin fee_buffer_pct 100)
    if exposure ≤ 0 then 0
    else if 100 ≤ feeBuf then 0
    else
      let usable := quote_balance * (exposure / 100) * (1 - feeBuf / 100)
      if usable ≤ 0 then 0
      else usable / (num_coins : ℚ)

/-! ## Order normalization — src/kraken/client.py -/

/-- Truncation toward zero, the rounding mode of Python's
`Decimal.quantize(..., ROUND_DOWN)` and of `Decimal.__floordiv__`. -/
def roundTowardZero (v : ℚ) : ℤ :=
  if 0 ≤ v then ⌊v⌋ else ⌈v⌉

/-- Embedding of `KrakenClient._round_down_decimal`: truncate `v` toward zero
at `d` decimal places; negative `d` returns `v` unchanged. -/
def roundDownDecimal (v : ℚ) (d : ℤ) : ℚ :=
  if d < 0 then v
  else (roundTowardZero (v * (10 : ℚ) ^ d) : ℚ) / (10 : ℚ) ^ d

/-- Embedding of `KrakenClient._round_down_to_tick`:
`(value // tick_size) * tick_size` for positive ticks (Decimal floor division
truncates toward zero). -/
def roundDownToTick (v tick : ℚ) : ℚ :=
  if tick ≤ 0 then v
  else (roundTowardZero (v / tick) : ℚ) * tick

/-- Kraken AssetPairs metadata consumed by `normalize_order_with_rules`. -/
structure PairRules where
  lot_decimals : ℤ
  pair_decimals : ℤ
  tick_size : Option ℚ
  ordermin : Option ℚ
  costmin : Option ℚ
deriving DecidableEq

/-- The typed rejections raised by `normalize_order_with_rules`
(`ValueError` messages in the source). -/
inductive OrderReject where
  | volumeRoundsToZero
  | volumeBelowMin
  | priceRoundsToZero
  | costBelowMin
deriving DecidableEq

/-- The floored volume of `normalize_order_with_rules`: `volume_dec` after
`_round_down_decimal(volume, lot_decimals)`. -/
def flooredVolume (rules : PairRules) (volume : ℚ) : ℚ :=
  roundDownDecimal volume rules.lot_decimals

/-- The normalized limit price of `normalize_order_with_rules`
(`normalized_price` before its rounds-to-zero check): for a non-market order
with a price, floor to the tick grid when a positive `tick_size` is known,
then floor to `pair_decimals`. -/
def normalizedLimitPrice (rules : PairRules) (ordertype : String)
    (price : Option ℚ) : Option ℚ :=
  match price with
  | none => none
  | some p =>
    if ordertype = "market" then none
    else
      some (roundDownDecimal
        (match rules.tick_size with
         | some ts => if 0 < ts then roundDownToTick p ts else p
         | none => p) rules.pair_decimals)

/-- `price_for_cost` in the source: normalized limit price if known,
else the caller-provided current price. -/
def priceForCost (rules : PairRules) (ordertype : String)
    (price currentPrice : Option ℚ) : Option ℚ :=
  match normalizedLimitPrice rules ordertype price with
  | some q => some q
  | none => currentPrice

/-- Volume step of `normalize_order_with_rules`: floor to `lot_decimals`,
reject on zero and on `ordermin`. -/
def normalizeVolume (rules : PairRules) (volume : ℚ) : Except OrderReject ℚ :=
  if flooredVolume rules volume ≤ 0 then .error .volumeRoundsToZero
  else
    match rules.ordermin with
    | some m =>
      if flooredVolume rules volume < m then .error .volumeBelowMin
      else .ok (flooredVolume rules volume)
    | none => .ok (flooredVolume rules volume)

/-- Price step of `normalize_order_with_rules`: the normalized limit price
when one applies, rejected if it rounds to zero. -/
def normalizePrice (rules : PairRules) (ordertype : String) (price : Option ℚ) :
    Except OrderReject (Option ℚ) :=
  match normalizedLimitPrice rules ordertype price with
  | none => .ok none
  | some p2 => if p2 ≤ 0 then .error .priceRoundsToZero else .ok (some p2)

/-- Embedding of `KrakenClient.normalize_order_with_rules`
(src/kraken/client.py): volume step, price step, then `costmin` enforcement
using the normalized limit price when known, else `current_price`. -/
def normalizeOrderWithRules (rules : PairRules) (ordertype : String) (volume : ℚ)
    (price : Option ℚ) (currentPrice : Option ℚ) :
    Except OrderReject (ℚ × Option ℚ) :=
  match normalizeVolume rules volume with
  | .error e => .error e
  | .ok v =>
    match normalizePrice rules ordertype price with
    | .error e => .error e
    | .ok np =>
      let pfc : Option ℚ :=
        match np with
        | some q => some q
        | none => currentPrice
      match rules.costmin, pfc with
      | some cm, some pc =>
          if v * pc < cm then .error .costBelowMin else .ok (v, np)
      | some _, none => .ok (v, np)
      | none, _ => .ok (v, np)

/-- An order normalization outcome is a rejection. -/
def isRejected {α : Type} (e : Except OrderReject α) : Prop :=
  ∃ r, e = Except.error r

/-! ## Market analyzer — src/analysis/market_condition.py,
src/analysis/market_analyzer.py -/

/-- The `MarketState` enum. -/
inductive MarketState where
  | strong_uptrend
  | strong_downtrend
  | moderate_trend
  | range_bound
  | volatile_breakout
  | choppy
  | low_volatility
  | unknown
deriving DecidableEq

/-- The analyzer thresholds read from configuration in
`MarketAnalyzer.__init__`. -/
structure AnalyzerConfig where
  adx_strong_trend : ℚ
  adx_weak_trend : ℚ
  choppiness_choppy : ℚ
  choppiness_trending : ℚ
  range_tight : ℚ
  range_moderate : ℚ
deriving DecidableEq

/-- Default analyzer thresholds (`ADX_STRONG_TREND=25`, `ADX_WEAK_TREND=20`,
`CHOPPINESS_CHOPPY=61.8`, `CHOPPINESS_TRENDING=38.2`, `RANGE_TIGHT=5`,
`RANGE_MODERATE=15`). -/
def defaultAnalyzerConfig : AnalyzerConfig :=
  { adx_strong_trend := 25, adx_weak_trend := 20,
    choppiness_choppy := 618/10, choppiness_trending := 382/10,
    range_tight := 5, range_moderate := 15 }

/-- Python truthiness of an optional float: `None` and `0.0` are falsy. -/
def optTruthy (o : Option ℚ) : Prop :=
  match o with
  | none => False
  | some x => x ≠ 0

instance (o : Option ℚ) : Decidable (optTruthy o) := by
  unfold optTruthy
  cases o with
  | none => exact inferInstanceAs (Decidable False)
  | some x => exact inferInstanceAs (Decidable (x ≠ 0))

/-- Embedding of `MarketAnalyzer._determine_state`: the decision tree mapping
an indicator snapshot `(adx, atr, choppiness, slope, range_pct)` (each
optional) to `(MarketState, confidence)`.  The `and`-guards of the source
(`slope and slope > 0`, `choppiness and choppiness < ...`,
`atr and choppiness and choppiness > ...`) use Python truthiness. -/
def determineState (cfg : AnalyzerConfig) (adx atr choppiness slope range_pct : Option ℚ) :
    MarketState × ℚ :=
  match adx, range_pct with
  | some a, some r =>
    if cfg.adx_strong_trend < a then
      if optTruthy slope ∧ 0 < slope.getD 0 then (.strong_uptrend, 8/10)
      else if optTruthy slope ∧ slope.getD 0 < 0 then (.strong_downtrend, 8/10)
      else (.moderate_trend, 8/10)
    else if a < cfg.adx_weak_trend then
      if r < cfg.range_moderate then
        if r < cfg.range_tight then (.low_volatility, 8/10)
        else if optTruthy choppiness ∧ choppiness.getD 0 < cfg.choppiness_choppy then
          (.range_bound, 75/100)
        else (.choppy, 6/10)
      else
        if optTruthy atr ∧ optTruthy choppiness ∧
            cfg.choppiness_choppy < choppiness.getD 0 then (.choppy, 7/10)
        else (.volatile_breakout, 6/10)
    else
      if optTruthy choppiness ∧ choppiness.getD 0 < cfg.choppiness_trending then
        (.moderate_trend, 65/100)
      else (.range_bound, 6/10)
  | _, _ => (.unknown, 0)

/-- Embedding of `MarketCondition.get_recommended_strategy`: canonical
state → strategy-name mapping. -/
def recommendedStrategy (state : MarketState) : String :=
  match state with
  | .range_bound => "mean_reversion"
  | .strong_uptrend => "sma_crossover"
  | .strong_downtrend => "sma_crossover"
  | .moderate_trend => "macd"
  | .volatile_breakout => "breakout"
  | .choppy => "mean_reversion"
  | .low_volatility => "grid"
  | .unknown => "mean_reversion"

/-- The strategy classes of src/strategies (the tagged variant the selector
instantiates). -/
inductive StratKind where
  | meanReversion
  | smaCrossover
  | breakout
  | macd
  | gridTrading
deriving DecidableEq

/-- Embedding of `CoinTrader._get_strategy_name`: the class name with
`Strategy` removed, lower-cased (`MeanReversionStrategy → "meanreversion"`,
`SMACrossoverStrategy → "smacrossover"`, `BreakoutStrategy → "breakout"`,
`MACDStrategy → "macd"`, `GridTradingStrategy → "gridtrading"`). -/
def strategyName (k : StratKind) : String :=
  match k with
  | .meanReversion => "meanreversion"
  | .smaCrossover => "smacrossover"
  | .breakout => "breakout"
  | .macd => "macd"
  | .gridTrading => "gridtrading"

/-- Embedding of `StrategySelector.select_strategy` (composition of
`get_recommended_strategy` with `_get_strategy_instance`): which strategy
class gets instantiated for a market state. -/
def selectStrategy (state : MarketState) : StratKind :=
  match recommendedStrategy state with
  | "mean_reversion" => .meanReversion
  | "sma_crossover" => .smaCrossover
  | "breakout" => .breakout
  | "macd" => .macd
  | "grid" => .gridTrading
  | _ => .meanReversion

/-! ## CoinTrader confirmation machine — src/coin_trader.py -/

/-- The confirmation-relevant slice of a CoinTrader's state: the current
strategy instance's class, and the pending regime with its confirmation
count. -/
structure CTState where
  current : StratKind
  pending : Option MarketState
  pendingConf : ℕ
deriving DecidableEq

/-- The pending-confirmation update of `analyze_and_update_strategy`
(the branch taken when a different strategy is recommended): increment on a
repeated pending state, otherwise restart at the observed state with count
1. -/
def updatePending (s : CTState) (obs : MarketState) : CTState :=
  if s.pending = some obs then { s with pendingConf := s.pendingConf + 1 }
  else { s with pending := some obs, pendingConf := 1 }

/-- Embedding of the strategy-update core of
`CoinTrader.analyze_and_update_strategy` for an iteration with enough data, a
due re-analysis and a non-null current strategy.  `obs` is the classified
market state, `canSwitch` the outcome of `can_switch_strategy()`.  Returns
the new state and whether `_switch_strategy` ran. -/
def analyzeStep (required : ℕ) (canSwitch : Bool) (s : CTState) (obs : MarketState) :
    CTState × Bool :=
  if recommendedStrategy obs = strategyName s.current then
    ({ s with pending := none, pendingConf := 0 }, false)
  else
    let s1 := updatePending s obs
    if required ≤ s1.pendingConf ∧ canSwitch = true then
      ({ current := selectStrategy obs, pending := none, pendingConf := 0 }, true)
    else (s1, false)

/-! ## OHLC cache — src/market_data.py -/

/-- One parsed OHLC candle (`OHLCCandle` dataclass). -/
structure OHLCCandle where
  time : ℤ
  open_ : ℚ
  high : ℚ
  low : ℚ
  close : ℚ
  vwap : ℚ
  volume : ℚ
  count : ℤ
deriving DecidableEq

/-- Append to a `deque(maxlen=...)`: a full deque drops its leftmost
element. -/
def dequeAppend (maxlen : ℕ) (dq : List OHLCCandle) (c : OHLCCandle) :
    List OHLCCandle :=
  if maxlen ≤ dq.length then dq.drop 1 ++ [c] else dq ++ [c]

/-- The merge loop of `OHLCCache.update`: walk the fetched candles carrying
`last_ts`; append when strictly newer, pop-and-replace the tail on an equal
timestamp, ignore older candles. -/
def mergeCandles (maxlen : ℕ) (dq : List OHLCCandle) (lastTs : Option ℤ) :
    List OHLCCandle → List OHLCCandle
  | [] => dq
  | c :: rest =>
    match lastTs with
    | none => mergeCandles maxlen (dequeAppend maxlen dq c) (some c.time) rest
    | some t =>
      if t < c.time then
        mergeCandles maxlen (dequeAppend maxlen dq c) (some c.time) rest
      else if c.time = t then
        mergeCandles maxlen (dequeAppend maxlen dq.dropLast c) (some t) rest
      else
        mergeCandles maxlen dq (some t) rest

/-- The stored candle times. -/
def candleTimes (dq : List OHLCCandle) : List ℤ :=
  dq.map OHLCCandle.time

/-- Embedding of the cache-merging part of `OHLCCache.update` for one pair:
with at least two parsed candles the last (exchange's in-progress) candle is
dropped, then the batch is merged starting from the stored tail's
timestamp. -/
def cacheUpdate (maxlen : ℕ) (dq : List OHLCCandle) (batch : List OHLCCandle) :
    List OHLCCandle :=
  let committed := if 2 ≤ batch.length then batch.dropLast else batch
  mergeCandles maxlen dq ((dq.getLast?).map OHLCCandle.time) committed

/-- Strictly increasing stored times. -/
def strictlyIncreasingTimes (dq : List OHLCCandle) : Prop :=
  List.Chain' (· < ·) (candleTimes dq)

/-! ## Trading database — src/database.py -/

/-- A row of the `positions` table (the fields touched by
`open_position`/`close_position`). -/
structure PositionRow where
  symbol : String
  strategy : String
  position_type : String
  entry_price : ℚ
  entry_volume : ℚ
  entry_fee : ℚ
  exit_price : Option ℚ
  exit_volume : Option ℚ
  exit_fee : Option ℚ
  gross_pnl : Option ℚ
  total_fees : Option ℚ
  net_pnl : Option ℚ
  pnl_percent : Option ℚ
  status : String
deriving DecidableEq

/-- A row of the `strategy_switches` table (`record_strategy_switch`
inserts). -/
structure StrategySwitchRow where
  symbol : String
  from_strategy : String
  to_strategy : String
  reason : String
  market_state : String
  confidence : ℚ
  confirmations_received : ℕ
  switches_today : ℕ
deriving DecidableEq

/-- A row of the `trades` table (only the identifying fields are needed
here). -/
structure TradeRow where
  symbol : String
  strategy : String
  trade_type : String
  side : String
  price : ℚ
  volume : ℚ
  fee : ℚ
deriving DecidableEq

/-- The durable store: the tables of `TradingDatabase.create_tables`,
positions keyed by their integer primary key. -/
structure TradingStore where
  trades : List TradeRow
  positions : List (ℕ × PositionRow)
  strategy_switches : List StrategySwitchRow
deriving DecidableEq

/-- `SELECT * FROM positions WHERE id = ?`. -/
def lookupPosition (store : TradingStore) (pid : ℕ) : Option PositionRow :=
  (store.positions.find? (fun e => e.1 = pid)).map (fun e => e.2)

/-- The P&L derivation and row update of `TradingDatabase.close_position`
applied to the fetched row. -/
def closePositionRow (p : PositionRow) (exit_price exit_volume exit_fee : ℚ) :
    PositionRow :=
  let gross_pnl :=
    if p.position_type = "long" then (exit_price - p.entry_price) * exit_volume
    else (p.entry_price - exit_price) * exit_volume
  let total_fees := p.entry_fee + exit_fee
  let net_pnl := gross_pnl - total_fees
  let pnl_percent := net_pnl / (p.entry_price * p.entry_volume) * 100
  { p with
    exit_price := some exit_price,
    exit_volume := some exit_volume,
    exit_fee := some exit_fee,
    gross_pnl := some gross_pnl,
    total_fees := some total_fees,
    net_pnl := some net_pnl,
    pnl_percent := some pnl_percent,
    status := "closed" }

/-- Embedding of `TradingDatabase.close_position`: fetch the row by id; if
absent, log and return (no write); otherwise update that row in one
statement. -/
def closePosition (store : TradingStore) (pid : ℕ)
    (exit_price exit_volume exit_fee : ℚ) : TradingStore :=
  match lookupPosition store pid with
  | none => store
  | some _ =>
    { store with
      positions := store.positions.map
        (fun e => if e.1 = pid then (e.1, closePositionRow e.2 exit_price exit_volume exit_fee) else e) }

/-- Embedding of `TradingDatabase.record_strategy_switch`: insert one row
into `strategy_switches`. -/
def recordStrategySwitch (store : TradingStore) (row : StrategySwitchRow) :
    TradingStore :=
  { store with strategy_switches := store.strategy_switches ++ [row] }

/-- Embedding of `CoinTrader._switch_strategy` together with its effect on
the durable store: it selects the new strategy and resets the confirmation
state, but performs no database write (the source method never calls
`record_strategy_switch`). -/
def switchStrategy (store : TradingStore) (obs : MarketState) :
    CTState × TradingStore :=
  ({ current := selectStrategy obs, pending := none, pendingConf := 0 }, store)

/-- `analyzeStep` with the durable store threaded through, mirroring that
`analyze_and_update_strategy` and `_switch_strategy` never write to the
database. -/
def analyzeStepStore (required : ℕ) (canSwitch : Bool) (s : CTState)
    (store : TradingStore) (obs : MarketState) : CTState × TradingStore × Bool :=
  if recommendedStrategy obs = strategyName s.current then
    ({ s with pending := none, pendingConf := 0 }, store, false)
  else
    let s1 := updatePending s obs
    if required ≤ s1.pendingConf ∧ canSwitch = true then
      let sw := switchStrategy store obs
      (sw.1, sw.2, true)
    else (s1, store, false)

/-! ## MACD exit gate — src/multi_coin_bot.py -/

/-- `net_profit_pct` of the MACD gating block:
`(current − entry)/entry − 2·taker_fee`. -/
def netProfitPct (entry_price current_price taker_fee : ℚ) : ℚ :=
  (current_price - entry_price) / entry_price - 2 * taker_fee

/-- Embedding of the MACD-only exit gating block of
`MultiCoinTraderBot.run_iteration` (src/multi_coin_bot.py:368-404): decides
whether a `sell` on an open `macd` position is skipped (`true` = the
`continue` is taken, the order is not placed). -/
def macdSellGated (entry_price current_price : ℚ) (hold_seconds : Option ℚ)
    (taker_fee min_hold_time min_profit_target : ℚ) : Bool :=
  let net := netProfitPct entry_price current_price taker_fee
  if 0 < net then
    match hold_seconds with
    | some h =>
      if h < min_hold_time then true
      else if net < min_profit_target then true
      else false
    | none =>
      if net < min_profit_target then true else false
  else false

/-- Python's `str.lower()` for the ASCII strategy names stored in the
database. -/
def pyLower (s : String) : String := String.mk (s.data.map Char.toLower)

/-- The gate as applied in the coordinator: only sells on a position whose
recorded strategy lower-cases to `"macd"` are gated at all. -/
def sellSkippedByMacdGate (strategy : String) (entry_price current_price : ℚ)
    (hold_seconds : Option ℚ) (taker_fee min_hold_time min_profit_target : ℚ) :
    Bool :=
  if pyLower strategy = "macd" then
    macdSellGated entry_price current_price hold_seconds taker_fee
      min_hold_time min_profit_target
  else false

/-- Default `TAKER_FEE` (0.0026). -/
def defaultTakerFee : ℚ := 26/10000

/-- Default `MIN_HOLD_TIME` (900 seconds). -/
def defaultMinHoldTime : ℚ := 900

/-- Default `MIN_PROFIT_TARGET` (0.010 = 1.0%). -/
def defaultMinProfitTarget : ℚ := 1/100

/-! ## Sample data for concrete instantiations -/

/-- A flat candle at time `t` with price `px`. -/
def mkCandle (t : ℤ) (px : ℚ) : OHLCCandle :=
  { time := t, open_ := px, high := px, low := px, close := px,
    vwap := px, volume := 0, count := 0 }

/-- A sample open long position row. -/
def samplePositionRow : PositionRow :=
  { symbol := "XBTUSD", strategy := "macd", position_type := "long",
    entry_price := 100, entry_volume := 2, entry_fee := 1,
    exit_price := none, exit_volume := none, exit_fee := none,
    gross_pnl := none, total_fees := none, net_pnl := none,
    pnl_percent := none, status := "open" }

/-- A sample store holding the one open position under id 1. -/
def sampleStore : TradingStore :=
  { trades := [], positions := [(1, samplePositionRow)], strategy_switches := [] }

/-- First RANGE_BOUND classification against a current
MeanReversionStrategy (confirmations_required = 3, switching allowed).
RANGE_BOUND recommends `mean_reversion` — the current strategy. -/
def c2Step1 : CTState × Bool :=
  analyzeStep 3 true ⟨.meanReversion, none, 0⟩ .range_bound

/-- Second consecutive RANGE_BOUND classification. -/
def c2Step2 : CTState × Bool :=
  analyzeStep 3 true c2Step1.1 .range_bound

/-- Third consecutive RANGE_BOUND classification. -/
def c2Step3 : CTState × Bool :=
  analyzeStep 3 true c2Step2.1 .range_bound

/-- First of three consecutive RANGE_BOUND classifications against a
current MACD strategy, switching allowed, confirmations_required = 3. -/
def c3Step1 : CTState × TradingStore × Bool :=
  analyzeStepStore 3 true ⟨.macd, none, 0⟩ ⟨[], [], []⟩ .range_bound

/-- Second consecutive RANGE_BOUND classification. -/
def c3Step2 : CTState × TradingStore × Bool :=
  analyzeStepStore 3 true c3Step1.1 c3Step1.2.1 .range_bound

/-- Third consecutive RANGE_BOUND classification: the confirmed switch. -/
def c3Step3 : CTState × TradingStore × Bool :=
  analyzeStepStore 3 true c3Step2.1 c3Step2.2.1 .range_bound

/-!
# Theorems
-/

example : equal_split_quote_allocation 1000 3 1 100 = 330 := by
  norm_num [equal_split_quote_allocation, pymin, pymax]
example : equal_split_quote_allocation 1000 3 1 75 = 495/2 := by
  norm_num [equal_split_quote_allocation, pymin, pymax]
example : equal_split_quote_allocation 1000 3 100 100 = 0 := by
  norm_num [equal_split_quote_allocation, pymin, pymax]

-- Scenario 3 of the spec (claim C5)
example :
    normalizeOrderWithRules
      { lot_decimals := 4, pair_decimals := 2, tick_size := some (5/100),
        ordermin := some (1/100), costmin := some 10 }
      "limit" (10099/100000) (some (10003/100)) none
      = .ok (1009/10000, some 100) := by
  have h : ¬ (("limit" : String) = "market") := by decide
  norm_num [normalizeOrderWithRules, normalizeVolume, normalizePrice,
    flooredVolume, normalizedLimitPrice,
    roundDownDecimal, roundDownToTick, roundTowardZero, h]

-- Scenario 4 of the spec (claim C6)
example :
    normalizeOrderWithRules
      { lot_decimals := 3, pair_decimals := 5, tick_size := none,
        ordermin := some (1/10), costmin := none }
      "market" (999/10000) none none
      = .error .volumeBelowMin := by
  norm_num [normalizeOrderWithRules, normalizeVolume, normalizePrice,
    flooredVolume, normalizedLimitPrice,
    roundDownDecimal, roundDownToTick, roundTowardZero]

/-- `roundTowardZero` of a nonnegative rational is nonnegative. -/
theorem roundTowardZero_nonneg (v : ℚ) (h : 0 ≤ v) : 0 ≤ roundTowardZero v := by
  unfold roundTowardZero
  rw [if_pos h]
  exact Int.floor_nonneg.mpr h

/-- Decimal flooring preserves nonnegativity. -/
theorem roundDownDecimal_nonneg (v : ℚ) (d : ℤ) (h : 0 ≤ v) :
    0 ≤ roundDownDecimal v d := by
  unfold roundDownDecimal
  split_ifs
  · exact h
  · have hc : (0 : ℚ) < 10 ^ d := by positivity
    refine div_nonneg ?_ hc.le
    exact_mod_cast roundTowardZero_nonneg _ (mul_nonneg h hc.le)

/-- Tick flooring preserves nonnegativity. -/
theorem roundDownToTick_nonneg (v tick : ℚ) (h : 0 ≤ v) :
    0 ≤ roundDownToTick v tick := by
  unfold roundDownToTick
  split_ifs with ht
  · exact h
  · push_neg at ht
    exact mul_nonneg
      (by exact_mod_cast roundTowardZero_nonneg _ (div_nonneg h ht.le)) ht.le

/-- An error outcome is rejected. -/
theorem isRejected_error {α : Type} (r : OrderReject) :
    isRejected (Except.error r : Except OrderReject α) := ⟨r, rfl⟩

/-- A success outcome is not rejected. -/
theorem not_isRejected_ok {α : Type} (x : α) :
    ¬ isRejected (Except.ok x : Except OrderReject α) := by
  rintro ⟨r, h⟩
  exact Except.noConfusion h

/-- A nonnegative limit price floors to a nonnegative normalized price. -/
theorem normalizedLimitPrice_nonneg (rules : PairRules) (ordertype : String)
    (price : Option ℚ) (hp0 : ∀ p ∈ price, 0 ≤ p) :
    ∀ q, normalizedLimitPrice rules ordertype price = some q → 0 ≤ q := by
  intro q hq
  cases price with
  | none => simp [normalizedLimitPrice] at hq
  | some p =>
    have hp : 0 ≤ p := hp0 p rfl
    by_cases hm : ordertype = "market"
    · simp only [normalizedLimitPrice, if_pos hm] at hq
      exact Option.noConfusion hq
    · simp only [normalizedLimitPrice, if_neg hm, Option.some.injEq] at hq
      subst hq
      apply roundDownDecimal_nonneg
      rcases rules.tick_size with _ | ts
      · exact hp
      · show 0 ≤ if 0 < ts then roundDownToTick p ts else p
        split_ifs with hposts
        · exact roundDownToTick_nonneg p ts hp
        · exact hp

/-- Rejection analysis of the price and cost steps once the volume step
succeeds. -/
theorem normalizeOrder_volume_ok_iff (rules : PairRules) (ordertype : String)
    (volume : ℚ) (price currentPrice : Option ℚ)
    (hnv : normalizeVolume rules volume = .ok (flooredVolume rules volume))
    (hvpos : 0 < flooredVolume rules volume)
    (hvno : ¬ ∃ m, rules.ordermin = some m ∧ flooredVolume rules volume < m)
    (hpnn : ∀ q, normalizedLimitPrice rules ordertype price = some q → 0 ≤ q) :
    (isRejected (normalizeOrderWithRules rules ordertype volume price currentPrice) ↔
      (flooredVolume rules volume = 0 ∨
       (∃ m, rules.ordermin = some m ∧ flooredVolume rules volume < m) ∨
       (∃ q, normalizedLimitPrice rules ordertype price = some q ∧ q = 0) ∨
       (∃ cm pc, rules.costmin = some cm ∧
          priceForCost rules ordertype price currentPrice = some pc ∧
          flooredVolume rules volume * pc < cm))) := by
  rcases hnp : normalizedLimitPrice rules ordertype price with _ | p2
  · have hpp : normalizePrice rules ordertype price = .ok none := by
      simp only [normalizePrice, hnp]
    have hpfc : priceForCost rules ordertype price currentPrice = currentPrice := by
      simp only [priceForCost, hnp]
    rcases hcm : rules.costmin with _ | cm
    · have hres : normalizeOrderWithRules rules ordertype volume price currentPrice
          = .ok (flooredVolume rules volume, none) := by
        simp only [normalizeOrderWithRules, hnv, hpp, hcm]
      rw [hres]
      refine iff_of_false (not_isRejected_ok _) ?_
      rintro (h | h | ⟨q, hq, _⟩ | ⟨cm', _, hcm', _, _⟩)
      · exact absurd h (ne_of_gt hvpos)
      · exact hvno h
      · exact Option.noConfusion hq
      · exact Option.noConfusion hcm'
    · rcases currentPrice with _ | pc
      · have hres : normalizeOrderWithRules rules ordertype volume price none
            = .ok (flooredVolume rules volume, none) := by
          simp only [normalizeOrderWithRules, hnv, hpp, hcm]
        rw [hres]
        refine iff_of_false (not_isRejected_ok _) ?_
        rintro (h | h | ⟨q, hq, _⟩ | ⟨cm', pc', _, hpc', _⟩)
        · exact absurd h (ne_of_gt hvpos)
        · exact hvno h
        · exact Option.noConfusion hq
        · rw [hpfc] at hpc'
          exact Option.noConfusion hpc'
      · by_cases hcost : flooredVolume rules volume * pc < cm
        · have hres : normalizeOrderWithRules rules ordertype volume price
              (some pc) = .error .costBelowMin := by
            simp only [normalizeOrderWithRules, hnv, hpp, hcm, if_pos hcost]
          rw [hres]
          exact iff_of_true (isRejected_error _)
            (Or.inr (Or.inr (Or.inr ⟨cm, pc, rfl, hpfc, hcost⟩)))
        · have hres : normalizeOrderWithRules rules ordertype volume price
              (some pc) = .ok (flooredVolume rules volume, none) := by
            simp only [normalizeOrderWithRules, hnv, hpp, hcm, if_neg hcost]
          rw [hres]
          refine iff_of_false (not_isRejected_ok _) ?_
          rintro (h | h | ⟨q, hq, _⟩ | ⟨cm', pc', hcm', hpc', hlt'⟩)
          · exact absurd h (ne_of_gt hvpos)
          · exact hvno h
          · exact Option.noConfusion hq
          · obtain rfl : cm = cm' := Option.some.inj hcm'
            rw [hpfc] at hpc'
            obtain rfl : pc = pc' := Option.some.inj hpc'
            exact hcost hlt'
  · have hp2 : 0 ≤ p2 := hpnn p2 hnp
    have hpfc : priceForCost rules ordertype price currentPrice = some p2 := by
      simp only [priceForCost, hnp]
    by_cases hpz : p2 ≤ 0
    · have hpp : normalizePrice rules ordertype price
          = .error .priceRoundsToZero := by
        simp only [normalizePrice, hnp, if_pos hpz]
      have hres : normalizeOrderWithRules rules ordertype volume price currentPrice
          = .error .priceRoundsToZero := by
        simp only [normalizeOrderWithRules, hnv, hpp]
      rw [hres]
      exact iff_of_true (isRejected_error _)
        (Or.inr (Or.inr (Or.inl ⟨p2, rfl, le_antisymm hpz hp2⟩)))
    · have hpp : normalizePrice rules ordertype price = .ok (some p2) := by
        simp only [normalizePrice, hnp, if_neg hpz]
      rcases hcm : rules.costmin with _ | cm
      · have hres : normalizeOrderWithRules rules ordertype volume price
            currentPrice = .ok (flooredVolume rules volume, some p2) := by
          simp only [normalizeOrderWithRules, hnv, hpp, hcm]
        rw [hres]
        refine iff_of_false (not_isRejected_ok _) ?_
        rintro (h | h | ⟨q, hq, hq0⟩ | ⟨cm', _, hcm', _, _⟩)
        · exact absurd h (ne_of_gt hvpos)
        · exact hvno h
        · obtain rfl : p2 = q := Option.some.inj hq
          exact hpz (le_of_eq hq0)
        · exact Option.noConfusion hcm'
      · by_cases hcost : flooredVolume rules volume * p2 < cm
        · have hres : normalizeOrderWithRules rules ordertype volume price
              currentPrice = .error .costBelowMin := by
            simp only [normalizeOrderWithRules, hnv, hpp, hcm, if_pos hcost]
          rw [hres]
          exact iff_of_true (isRejected_error _)
            (Or.inr (Or.inr (Or.inr ⟨cm, p2, rfl, hpfc, hcost⟩)))
        · have hres : normalizeOrderWithRules rules ordertype volume price
              currentPrice = .ok (flooredVolume rules volume, some p2) := by
            simp only [normalizeOrderWithRules, hnv, hpp, hcm, if_neg hcost]
          rw [hres]
          refine iff_of_false (not_isRejected_ok _) ?_
          rintro (h | h | ⟨q, hq, hq0⟩ | ⟨cm', pc', hcm', hpc', hlt'⟩)
          · exact absurd h (ne_of_gt hvpos)
          · exact hvno h
          · obtain rfl : p2 = q := Option.some.inj hq
            exact hpz (le_of_eq hq0)
          · obtain rfl : cm = cm' := Option.some.inj hcm'
            rw [hpfc] at hpc'
            obtain rfl : p2 = pc' := Option.some.inj hpc'
            exact hcost hlt'

/-- C6: for nonnegative inputs, normalization is rejected exactly when the
floored volume is zero, the floored volume is below `ordermin`, the floored
limit price is zero, or the estimated cost `volume_norm · price_for_cost`
(normalized limit price if known, else current price) is below `costmin`; in
particular rules `{lot_decimals:3, ordermin:0.100}` reject a market order of
volume 0.0999 as volume-below-ordermin. -/
theorem C6_normalize_rejection :
    normalizeOrderWithRules
      { lot_decimals := 3, pair_decimals := 5, tick_size := none,
        ordermin := some (1/10), costmin := none }
      "market" (999/10000) none none = .error .volumeBelowMin ∧
    (∀ (rules : PairRules) (ordertype : String) (volume : ℚ)
       (price currentPrice : Option ℚ),
      0 ≤ volume → (∀ p ∈ price, 0 ≤ p) →
      (isRejected (normalizeOrderWithRules rules ordertype volume price currentPrice)
        ↔ (flooredVolume rules volume = 0 ∨
           (∃ m, rules.ordermin = some m ∧ flooredVolume rules volume < m) ∨
           (∃ q, normalizedLimitPrice rules ordertype price = some q ∧ q = 0) ∨
           (∃ cm pc, rules.costmin = some cm ∧
              priceForCost rules ordertype price currentPrice = some pc ∧
              flooredVolume rules volume * pc < cm)))) := by
  constructor
  · norm_num [normalizeOrderWithRules, normalizeVolume, normalizePrice,
      flooredVolume, normalizedLimitPrice,
      roundDownDecimal, roundDownToTick, roundTowardZero]
  intro rules ordertype volume price currentPrice hv0 hp0
  have hvnn : 0 ≤ flooredVolume rules volume :=
    roundDownDecimal_nonneg volume rules.lot_decimals hv0
  have hpnn := normalizedLimitPrice_nonneg rules ordertype price hp0
  by_cases hvz : flooredVolume rules volume ≤ 0
  · have hnv : normalizeVolume rules volume = .error .volumeRoundsToZero := by
      simp only [normalizeVolume, if_pos hvz]
    have hres : normalizeOrderWithRules rules ordertype volume price currentPrice
        = .error .volumeRoundsToZero := by
      simp only [normalizeOrderWithRules, hnv]
    rw [hres]
    exact iff_of_true (isRejected_error _) (Or.inl (le_antisymm hvz hvnn))
  · push_neg at hvz
    rcases hom : rules.ordermin with _ | m
    · have hnv : normalizeVolume rules volume
          = .ok (flooredVolume rules volume) := by
        simp only [normalizeVolume, hom, if_neg (not_le.mpr hvz)]
      have H := normalizeOrder_volume_ok_iff rules ordertype volume price
        currentPrice hnv hvz
        (by rintro ⟨m, hm, _⟩; rw [hom] at hm; exact Option.noConfusion hm)
        hpnn
      rw [hom] at H
      exact H
    · by_cases hvm : flooredVolume rules volume < m
      · have hnv : normalizeVolume rules volume = .error .volumeBelowMin := by
          simp only [normalizeVolume, hom, if_neg (not_le.mpr hvz), if_pos hvm]
        have hres : normalizeOrderWithRules rules ordertype volume price
            currentPrice = .error .volumeBelowMin := by
          simp only [normalizeOrderWithRules, hnv]
        rw [hres]
        exact iff_of_true (isRejected_error _) (Or.inr (Or.inl ⟨m, rfl, hvm⟩))
      · have hnv : normalizeVolume rules volume
            = .ok (flooredVolume rules volume) := by
          simp only [normalizeVolume, hom, if_neg (not_le.mpr hvz), if_neg hvm]
        have H := normalizeOrder_volume_ok_iff rules ordertype volume price
          currentPrice hnv hvz
          (by
            rintro ⟨m', hm', hlt'⟩
            rw [hom] at hm'
            obtain rfl : m = m' := Option.some.inj hm'
            exact hvm hlt')
          hpnn
        rw [hom] at H
        exact H

/-- C6 witness: the characterization instantiated at the literal rejection
scenario. -/
theorem C6_normalize_rejection_witness :
    isRejected
      (normalizeOrderWithRules
        { lot_decimals := 3, pair_decimals := 5, tick_size := none,
          ordermin := some (1/10), costmin := none }
        "market" (999/10000) none none) :=
  (C6_normalize_rejection.2
      { lot_decimals := 3, pair_decimals := 5, tick_size := none,
        ordermin := some (1/10), costmin := none }
      "market" (999/10000) none none (by norm_num) (by simp)).mpr
    (Or.inr (Or.inl ⟨1/10, rfl,
      by norm_num [flooredVolume, roundDownDecimal, roundTowardZero]⟩))

/-- C7: `equal_split_quote_allocation` returns 0 whenever `balance ≤ 0`,
`num_coins ≤ 0`, `fee_buffer ≥ 100` or `exposure ≤ 0`, and otherwise equals
`balance · exposure/100 · (1 − fee_buffer/100) / num_coins` with both
percentages clamped to `[0,100]`; in particular `(1000, 3, fee_buffer=1,
exposure=100) = 330`, with `exposure=75` it is `247.5`, and with
`fee_buffer=100` it is `0`. -/
theorem C7_equal_split_allocation :
    (∀ (balance : ℚ) (num_coins : ℤ) (fee_buffer_pct exposure_pct : ℚ),
      ((balance ≤ 0 ∨ num_coins ≤ 0 ∨ 100 ≤ fee_buffer_pct ∨ exposure_pct ≤ 0) →
        equal_split_quote_allocation balance num_coins fee_buffer_pct exposure_pct = 0) ∧
      (0 < balance → 0 < num_coins → fee_buffer_pct < 100 → 0 < exposure_pct →
        equal_split_quote_allocation balance num_coins fee_buffer_pct exposure_pct =
          balance * (pymax 0 (pymin exposure_pct 100) / 100) *
            (1 - pymax 0 (pymin fee_buffer_pct 100) / 100) / (num_coins : ℚ))) ∧
    equal_split_quote_allocation 1000 3 1 100 = 330 ∧
    equal_split_quote_allocation 1000 3 1 75 = 495/2 ∧
    equal_split_quote_allocation 1000 3 100 100 = 0 := by
  refine ⟨fun balance num_coins fb ex => ⟨?_, ?_⟩, ?_, ?_, ?_⟩
  · intro h
    simp only [equal_split_quote_allocation]
    rcases h with h | h | h | h
    · rw [if_pos h]
    · by_cases h1 : balance ≤ 0
      · rw [if_pos h1]
      · rw [if_neg h1, if_pos h]
    · by_cases h1 : balance ≤ 0
      · rw [if_pos h1]
      · by_cases h2 : num_coins ≤ 0
        · rw [if_neg h1, if_pos h2]
        · have hfbv : pymax 0 (pymin fb 100) = 100 := by
            unfold pymin pymax; split_ifs <;> linarith
          by_cases h3 : pymax 0 (pymin ex 100) ≤ 0
          · rw [if_neg h1, if_neg h2, if_pos h3]
          · rw [if_neg h1, if_neg h2, if_neg h3, hfbv, if_pos (le_refl (100 : ℚ))]
    · have hexv : pymax 0 (pymin ex 100) = 0 := by
        unfold pymin pymax; split_ifs <;> linarith
      by_cases h1 : balance ≤ 0
      · rw [if_pos h1]
      · by_cases h2 : num_coins ≤ 0
        · rw [if_neg h1, if_pos h2]
        · rw [if_neg h1, if_neg h2, hexv, if_pos (le_refl (0 : ℚ))]
  · intro hb hn hfb hex
    have hexpos : 0 < pymax 0 (pymin ex 100) := by
      unfold pymin pymax; split_ifs <;> linarith
    have hfblt : pymax 0 (pymin fb 100) < 100 := by
      unfold pymin pymax; split_ifs <;> linarith
    have husable : 0 < balance * (pymax 0 (pymin ex 100) / 100) *
        (1 - pymax 0 (pymin fb 100) / 100) := by
      have h1 : 0 < pymax 0 (pymin ex 100) / 100 := div_pos hexpos (by norm_num)
      have h2 : 0 < 1 - pymax 0 (pymin fb 100) / 100 := by linarith
      exact mul_pos (mul_pos hb h1) h2
    simp only [equal_split_quote_allocation]
    rw [if_neg (not_le.mpr hb), if_neg (not_le.mpr hn), if_neg (not_le.mpr hexpos),
      if_neg (not_le.mpr hfblt), if_neg (not_le.mpr husable)]
  · norm_num [equal_split_quote_allocation, pymin, pymax]
  · norm_num [equal_split_quote_allocation, pymin, pymax]
  · norm_num [equal_split_quote_allocation, pymin, pymax]

/-- C7 witness: concrete instantiations of both implications. -/
theorem C7_equal_split_allocation_witness :
    equal_split_quote_allocation (-5) 3 1 100 = 0 ∧
    equal_split_quote_allocation 1000 4 1 75 =
      1000 * (pymax 0 (pymin 75 100) / 100) * (1 - pymax 0 (pymin 1 100) / 100) / (4 : ℚ) :=
  ⟨(C7_equal_split_allocation.1 (-5) 3 1 100).1 (Or.inl (by norm_num)),
   (C7_equal_split_allocation.1 1000 4 1 75).2 (by norm_num) (by norm_num)
     (by norm_num) (by norm_num)⟩

/-- C1: for a sell on an open `macd` position, the coordinator computes
`net_profit = (current − entry)/entry − 2·taker_fee`; with the hold time
known, the order is skipped iff `net_profit > 0` and either the hold time is
below `min_hold_time` or `net_profit < min_profit_target`; losing exits
(`net_profit ≤ 0`) always pass.  The configured defaults are 900 s and
1.0%. -/
theorem C1_macd_exit_gate :
    (∀ entry_price current_price taker_fee : ℚ,
       netProfitPct entry_price current_price taker_fee
         = (current_price - entry_price) / entry_price - 2 * taker_fee) ∧
    (∀ entry_price current_price hold taker_fee min_hold min_target : ℚ,
       (sellSkippedByMacdGate "macd" entry_price current_price (some hold)
           taker_fee min_hold min_target = true ↔
         0 < netProfitPct entry_price current_price taker_fee ∧
           (hold < min_hold ∨
            netProfitPct entry_price current_price taker_fee < min_target)) ∧
       (netProfitPct entry_price current_price taker_fee ≤ 0 →
         sellSkippedByMacdGate "macd" entry_price current_price (some hold)
           taker_fee min_hold min_target = false)) ∧
    defaultMinHoldTime = 900 ∧ defaultMinProfitTarget = 1/100 := by
  have hm : pyLower "macd" = "macd" := by decide
  refine ⟨fun _ _ _ => rfl, fun e c h f mh mt => ⟨?_, ?_⟩, rfl, rfl⟩
  · simp only [sellSkippedByMacdGate, macdSellGated, hm, if_pos]
    split_ifs with h1 h2 h3 <;> simp_all
  · intro hle
    simp only [sellSkippedByMacdGate, macdSellGated, hm, if_pos]
    rw [if_neg (not_lt.mpr hle)]

/-- C1 witness: a profitable exit held too briefly is gated; a losing exit
passes. -/
theorem C1_macd_exit_gate_witness :
    sellSkippedByMacdGate "macd" 100 110 (some 100) (26/10000) 900 (1/100) = true ∧
    sellSkippedByMacdGate "macd" 100 90 (some 100) (26/10000) 900 (1/100) = false :=
  ⟨(C1_macd_exit_gate.2.1 100 110 100 (26/10000) 900 (1/100)).1.mpr
      ⟨by norm_num [netProfitPct], Or.inl (by norm_num)⟩,
   (C1_macd_exit_gate.2.1 100 90 100 (26/10000) 900 (1/100)).2
      (by norm_num [netProfitPct])⟩

/-- C10: `close_position` with an id absent from the positions table is a
no-op on the whole store. -/
theorem C10_close_position_missing_id :
    ∀ (store : TradingStore) (pid : ℕ) (exit_price exit_volume exit_fee : ℚ),
      lookupPosition store pid = none →
      closePosition store pid exit_price exit_volume exit_fee = store := by
  intro store pid ep ev ef h
  unfold closePosition
  rw [h]

/-- C10 witness: closing the absent id 2 leaves the sample store
untouched. -/
theorem C10_close_position_missing_id_witness :
    closePosition sampleStore 2 0 0 0 = sampleStore :=
  C10_close_position_missing_id sampleStore 2 0 0 0 (by rfl)

/-- On a list whose first hit for key `pid` is `e`, updating the value at
`pid` makes the first hit `(e.1, f e.2)`. -/
theorem find?_key_map_update (pid : ℕ) (f : PositionRow → PositionRow) :
    ∀ (l : List (ℕ × PositionRow)) (e : ℕ × PositionRow),
      l.find? (fun x => x.1 = pid) = some e →
      (l.map (fun x => if x.1 = pid then (x.1, f x.2) else x)).find?
          (fun x => x.1 = pid) = some (e.1, f e.2) := by
  intro l
  induction l with
  | nil => intro e h; simp at h
  | cons a t ih =>
    intro e h
    by_cases ha : a.1 = pid
    · rw [List.find?_cons_of_pos _ (by simpa using ha)] at h
      cases h
      simp only [List.map_cons, if_pos ha]
      rw [List.find?_cons_of_pos _ (by simpa using ha)]
    · rw [List.find?_cons_of_neg _ (by simpa using ha)] at h
      simp only [List.map_cons, if_neg ha]
      rw [List.find?_cons_of_neg _ (by simpa using ha)]
      exact ih e h

/-- C9: a position closed through `close_position` gets
`gross_pnl = (exit − entry)·exit_volume` for a long (symmetric for short),
`total_fees = entry_fee + exit_fee`, `net_pnl = gross_pnl − total_fees`,
`pnl_percent = net_pnl/(entry_price·entry_volume)·100`, `status = "closed"`,
and the updated row is what the store then holds under that id. -/
theorem C9_close_position_pnl :
    ∀ (store : TradingStore) (pid : ℕ) (p : PositionRow)
      (exit_price exit_volume exit_fee : ℚ),
      lookupPosition store pid = some p →
      (closePositionRow p exit_price exit_volume exit_fee).status = "closed" ∧
      (closePositionRow p exit_price exit_volume exit_fee).total_fees
        = some (p.entry_fee + exit_fee) ∧
      (closePositionRow p exit_price exit_volume exit_fee).gross_pnl =
        some (if p.position_type = "long" then (exit_price - p.entry_price) * exit_volume
              else (p.entry_price - exit_price) * exit_volume) ∧
      (closePositionRow p exit_price exit_volume exit_fee).net_pnl =
        some ((if p.position_type = "long" then (exit_price - p.entry_price) * exit_volume
               else (p.entry_price - exit_price) * exit_volume)
              - (p.entry_fee + exit_fee)) ∧
      (closePositionRow p exit_price exit_volume exit_fee).pnl_percent =
        some (((if p.position_type = "long" then (exit_price - p.entry_price) * exit_volume
                else (p.entry_price - exit_price) * exit_volume)
               - (p.entry_fee + exit_fee))
              / (p.entry_price * p.entry_volume) * 100) ∧
      lookupPosition (closePosition store pid exit_price exit_volume exit_fee) pid
        = some (closePositionRow p exit_price exit_volume exit_fee) := by
  intro store pid p ep ev ef h
  refine ⟨rfl, rfl, ?_, ?_, ?_, ?_⟩
  · simp only [closePositionRow]
  · simp only [closePositionRow]
  · simp only [closePositionRow]
  · simp only [closePosition, h]
    unfold lookupPosition at h ⊢
    obtain ⟨e, he, hep⟩ :
        ∃ e, store.positions.find? (fun x => x.1 = pid) = some e ∧ e.2 = p := by
      cases hf : store.positions.find? (fun x => x.1 = pid) with
      | none => rw [hf] at h; simp at h
      | some e => rw [hf] at h; simp at h; exact ⟨e, rfl, h⟩
    rw [find?_key_map_update pid (fun r => closePositionRow r ep ev ef)
      store.positions e he]
    simp [hep]

/-- C9 witness: closing the sample position at exit price 110. -/
theorem C9_close_position_pnl_witness :
    (closePositionRow samplePositionRow 110 2 1).status = "closed" ∧
    lookupPosition (closePosition sampleStore 1 110 2 1) 1
      = some (closePositionRow samplePositionRow 110 2 1) :=
  ⟨(C9_close_position_pnl sampleStore 1 samplePositionRow 110 2 1 (by rfl)).1,
   (C9_close_position_pnl sampleStore 1 samplePositionRow 110 2 1 (by rfl)).2.2.2.2.2⟩

/-- C5: the literal normalization example — rules `{lot_decimals:4,
pair_decimals:2, tick_size:0.05, ordermin:0.01, costmin:10}`, limit order
`(volume 0.10099, price 100.03)` normalizes to `(0.1009, 100.00)` — together
with the flooring characterizations: volume flooring truncates toward zero to
the greatest multiple of `10^(−lot_decimals)` not exceeding a nonnegative
input, and tick flooring yields the greatest multiple of `tick_size` not
exceeding the input. -/
theorem C5_normalize_example :
    normalizeOrderWithRules
      { lot_decimals := 4, pair_decimals := 2, tick_size := some (5/100),
        ordermin := some (1/100), costmin := some 10 }
      "limit" (10099/100000) (some (10003/100)) none
      = .ok (1009/10000, some 100) ∧
    (∀ p tick : ℚ, 0 ≤ p → 0 < tick →
      roundDownToTick p tick ≤ p ∧
      (∃ k : ℤ, roundDownToTick p tick = (k : ℚ) * tick) ∧
      (∀ k : ℤ, (k : ℚ) * tick ≤ p → (k : ℚ) * tick ≤ roundDownToTick p tick)) ∧
    (∀ (v : ℚ) (d : ℤ), 0 ≤ v → 0 ≤ d →
      roundDownDecimal v d ≤ v ∧
      (∃ k : ℤ, roundDownDecimal v d = (k : ℚ) / 10 ^ d) ∧
      (∀ k : ℤ, (k : ℚ) / 10 ^ d ≤ v → (k : ℚ) / 10 ^ d ≤ roundDownDecimal v d)) := by
  refine ⟨?_, ?_, ?_⟩
  · have h : ¬ (("limit" : String) = "market") := by decide
    norm_num [normalizeOrderWithRules, normalizeVolume, normalizePrice,
      flooredVolume, normalizedLimitPrice,
      roundDownDecimal, roundDownToTick, roundTowardZero, h]
  · intro p tick hp ht
    have htz : roundDownToTick p tick = ((⌊p / tick⌋ : ℤ) : ℚ) * tick := by
      unfold roundDownToTick roundTowardZero
      rw [if_neg (not_le.mpr ht), if_pos (div_nonneg hp ht.le)]
    refine ⟨?_, ⟨⌊p / tick⌋, htz⟩, ?_⟩
    · rw [htz]
      calc ((⌊p / tick⌋ : ℤ) : ℚ) * tick ≤ (p / tick) * tick :=
            mul_le_mul_of_nonneg_right (Int.floor_le _) ht.le
        _ = p := div_mul_cancel₀ p (ne_of_gt ht)
    · intro k hk
      rw [htz]
      have hkd : (k : ℚ) ≤ p / tick := (le_div_iff₀ ht).mpr hk
      exact mul_le_mul_of_nonneg_right
        (by exact_mod_cast Int.le_floor.mpr hkd) ht.le
  · intro v d hv hd
    have hc : (0 : ℚ) < 10 ^ d := by positivity
    have hdz : roundDownDecimal v d = ((⌊v * 10 ^ d⌋ : ℤ) : ℚ) / 10 ^ d := by
      unfold roundDownDecimal roundTowardZero
      rw [if_neg (not_lt.mpr hd), if_pos (mul_nonneg hv hc.le)]
    refine ⟨?_, ⟨⌊v * 10 ^ d⌋, hdz⟩, ?_⟩
    · rw [hdz, div_le_iff₀ hc]
      exact Int.floor_le _
    · intro k hk
      rw [hdz]
      rw [div_le_iff₀ hc] at hk
      exact (div_le_div_iff_of_pos_right hc).mpr (by exact_mod_cast Int.le_floor.mpr hk)

/-- C5 witness: the tick-flooring characterization instantiated at the
example's price 100.03 and tick 0.05. -/
theorem C5_normalize_example_witness :
    roundDownToTick (10003/100) (5/100) ≤ (10003/100 : ℚ) ∧
    (∃ k : ℤ, roundDownToTick (10003/100) (5/100) = (k : ℚ) * (5/100)) :=
  ⟨(C5_normalize_example.2.1 (10003/100) (5/100) (by norm_num) (by norm_num)).1,
   (C5_normalize_example.2.1 (10003/100) (5/100) (by norm_num) (by norm_num)).2.1⟩

/-- C8 (amended): with `adx` or `range%` unavailable the classification is
UNKNOWN at confidence 0.  With `adx < ADX_WEAK` (thresholds ordered as by
default): `range% < RANGE_TIGHT` gives LOW_VOLATILITY @ 0.8; a moderate
range gives RANGE_BOUND @ 0.75 exactly when choppiness is available, nonzero
and below CHOPPINESS_CHOPPY, else CHOPPY @ 0.6; a wide range gives CHOPPY @
0.7 exactly when atr is available and nonzero and choppiness is available
and above CHOPPINESS_CHOPPY, else VOLATILE_BREAKOUT @ 0.6. -/
theorem C8_weak_adx_classification :
    (∀ (cfg : AnalyzerConfig) (atr chop slope rp : Option ℚ),
      determineState cfg none atr chop slope rp = (.unknown, 0)) ∧
    (∀ (cfg : AnalyzerConfig) (adx atr chop slope : Option ℚ),
      determineState cfg adx atr chop slope none = (.unknown, 0)) ∧
    (∀ (cfg : AnalyzerConfig) (a r : ℚ) (atr chop slope : Option ℚ),
      a < cfg.adx_weak_trend → cfg.adx_weak_trend ≤ cfg.adx_strong_trend →
      cfg.range_tight ≤ cfg.range_moderate →
      (r < cfg.range_tight →
        determineState cfg (some a) atr chop slope (some r)
          = (.low_volatility, 8/10)) ∧
      (cfg.range_tight ≤ r → r < cfg.range_moderate →
        ((optTruthy chop ∧ chop.getD 0 < cfg.choppiness_choppy →
           determineState cfg (some a) atr chop slope (some r)
             = (.range_bound, 75/100)) ∧
         (¬(optTruthy chop ∧ chop.getD 0 < cfg.choppiness_choppy) →
           determineState cfg (some a) atr chop slope (some r)
             = (.choppy, 6/10)))) ∧
      (cfg.range_moderate ≤ r →
        ((optTruthy atr ∧ optTruthy chop ∧
            cfg.choppiness_choppy < chop.getD 0 →
           determineState cfg (some a) atr chop slope (some r)
             = (.choppy, 7/10)) ∧
         (¬(optTruthy atr ∧ optTruthy chop ∧
              cfg.choppiness_choppy < chop.getD 0) →
           determineState cfg (some a) atr chop slope (some r)
             = (.volatile_breakout, 6/10))))) := by
  refine ⟨fun cfg atr chop slope rp => rfl,
    fun cfg adx atr chop slope => by cases adx <;> rfl, ?_⟩
  intro cfg a r atr chop slope h1 h2 h3
  have hns : ¬ (cfg.adx_strong_trend < a) := not_lt.mpr (le_trans (le_of_lt h1) h2)
  refine ⟨?_, ?_, ?_⟩
  · intro ht
    have hm : r < cfg.range_moderate := lt_of_lt_of_le ht h3
    simp only [determineState]
    rw [if_neg hns, if_pos h1, if_pos hm, if_pos ht]
  · intro ht hm
    constructor
    · intro hc
      simp only [determineState]
      rw [if_neg hns, if_pos h1, if_pos hm, if_neg (not_lt.mpr ht), if_pos hc]
    · intro hc
      simp only [determineState]
      rw [if_neg hns, if_pos h1, if_pos hm, if_neg (not_lt.mpr ht), if_neg hc]
  · intro hm
    constructor
    · intro hc
      simp only [determineState]
      rw [if_neg hns, if_pos h1, if_neg (not_lt.mpr hm), if_pos hc]
    · intro hc
      simp only [determineState]
      rw [if_neg hns, if_pos h1, if_neg (not_lt.mpr hm), if_neg hc]

/-- C8 witness: a moderate-range snapshot with available nonzero choppiness
below the threshold is classified RANGE_BOUND @ 0.75. -/
theorem C8_weak_adx_classification_witness :
    determineState defaultAnalyzerConfig (some 10) none (some 50) none (some 10)
      = (.range_bound, 75/100) :=
  ((C8_weak_adx_classification.2.2 defaultAnalyzerConfig 10 10 none (some 50) none
      (by norm_num [defaultAnalyzerConfig])
      (by norm_num [defaultAnalyzerConfig])
      (by norm_num [defaultAnalyzerConfig])).2.1
    (by norm_num [defaultAnalyzerConfig])
    (by norm_num [defaultAnalyzerConfig])).1
    ⟨by norm_num [optTruthy], by norm_num [defaultAnalyzerConfig]⟩

/-- C8 counterexample: the snapshot `adx = 10`, `atr` unavailable,
`choppiness = 70`, `slope = 0`, `range% = 20` under the default thresholds
has `adx < ADX_WEAK`, `range% ≥ RANGE_MODERATE` and
`choppiness > CHOPPINESS_CHOPPY`, yet the code classifies it
VOLATILE_BREAKOUT @ 0.6, not CHOPPY @ 0.7 as the claim requires. -/
theorem C8_weak_adx_counterexample :
    (10 : ℚ) < defaultAnalyzerConfig.adx_weak_trend ∧
    defaultAnalyzerConfig.range_moderate ≤ (20 : ℚ) ∧
    defaultAnalyzerConfig.choppiness_choppy < (70 : ℚ) ∧
    determineState defaultAnalyzerConfig (some 10) none (some 70) (some 0) (some 20)
      = (.volatile_breakout, 6/10) ∧
    determineState defaultAnalyzerConfig (some 10) none (some 70) (some 0) (some 20)
      ≠ (.choppy, 7/10) := by
  refine ⟨by norm_num [defaultAnalyzerConfig], by norm_num [defaultAnalyzerConfig],
    by norm_num [defaultAnalyzerConfig], ?_, ?_⟩
  · norm_num [determineState, defaultAnalyzerConfig, optTruthy]
  · norm_num [determineState, defaultAnalyzerConfig, optTruthy]

/-- The stored times of a capped append. -/
theorem candleTimes_dequeAppend (maxlen : ℕ) (dq : List OHLCCandle) (c : OHLCCandle) :
    candleTimes (dequeAppend maxlen dq c)
      = (candleTimes dq).drop (if maxlen ≤ dq.length then 1 else 0) ++ [c.time] := by
  unfold dequeAppend candleTimes
  split_ifs <;> simp

/-- A strictly increasing integer list stays strictly increasing after
dropping a front segment. -/
theorem chainLt_drop (k : ℕ) :
    ∀ L : List ℤ, List.Chain' (· < ·) L → List.Chain' (· < ·) (L.drop k) := by
  induction k with
  | zero => intro L h; simpa using h
  | succ n ih =>
    intro L h
    cases L with
    | nil => simp
    | cons a t => simpa [List.drop_succ_cons] using ih t h.tail

/-- Dropping from the front preserves the last element when the result is
nonempty. -/
theorem getLast?_drop_eq (k : ℕ) :
    ∀ L : List ℤ, L.drop k ≠ [] → (L.drop k).getLast? = L.getLast? := by
  induction k with
  | zero => intro L _; rfl
  | succ n ih =>
    intro L h
    cases L with
    | nil => simp at h
    | cons a t =>
      rw [List.drop_succ_cons] at h ⊢
      rw [ih t h]
      cases t with
      | nil => simp at h
      | cons b u => simp

/-- Appending an element above the last keeps the list strictly
increasing. -/
theorem chainLt_append_singleton (L : List ℤ) (a : ℤ)
    (hc : List.Chain' (· < ·) L) (hlast : ∀ u ∈ L.getLast?, u < a) :
    List.Chain' (· < ·) (L ++ [a]) := by
  rw [List.chain'_append]
  refine ⟨hc, List.chain'_singleton a, ?_⟩
  intro x hx y hy
  simp only [List.head?_cons, Option.mem_def, Option.some.injEq] at hy
  subst hy
  exact hlast x hx

/-- Removing the last element keeps the list strictly increasing. -/
theorem chainLt_dropLast (L : List ℤ) (hc : List.Chain' (· < ·) L) :
    List.Chain' (· < ·) L.dropLast :=
  hc.sublist (List.dropLast_sublist L)

/-- In a strictly increasing list, every element before the last is below
it. -/
theorem chainLt_dropLast_last (L : List ℤ) (t : ℤ)
    (hc : List.Chain' (· < ·) L) (hlast : L.getLast? = some t) :
    ∀ u ∈ L.dropLast.getLast?, u < t := by
  intro u hu
  have hsplit : L.dropLast ++ [t] = L :=
    List.dropLast_append_getLast? t (Option.mem_def.mpr hlast)
  rw [← hsplit] at hc
  exact (List.chain'_append.mp hc).2.2 u hu t (by simp)

/-- The merge loop of `OHLCCache.update` preserves strictly increasing
stored times whenever `last_ts` is the stored tail's time. -/
theorem mergeCandles_chain (maxlen : ℕ) :
    ∀ (batch dq : List OHLCCandle) (lastTs : Option ℤ),
      List.Chain' (· < ·) (candleTimes dq) →
      lastTs = (candleTimes dq).getLast? →
      List.Chain' (· < ·) (candleTimes (mergeCandles maxlen dq lastTs batch)) := by
  intro batch
  induction batch with
  | nil => intro dq lastTs hc _; exact hc
  | cons c rest ih =>
    intro dq lastTs hc hlast
    cases lastTs with
    | none =>
      simp only [mergeCandles]
      apply ih
      · rw [candleTimes_dequeAppend]
        have hdq : candleTimes dq = [] := by
          have hnone := hlast.symm
          rwa [List.getLast?_eq_none_iff] at hnone
        rw [hdq]
        simp
      · rw [candleTimes_dequeAppend]
        simp
    | some t =>
      simp only [mergeCandles]
      by_cases h1 : t < c.time
      · rw [if_pos h1]
        apply ih
        · rw [candleTimes_dequeAppend]
          apply chainLt_append_singleton
          · exact chainLt_drop _ _ hc
          · intro u hu
            have hne : (candleTimes dq).drop (if maxlen ≤ dq.length then 1 else 0) ≠ [] := by
              intro hnil
              rw [hnil] at hu
              simp at hu
            rw [getLast?_drop_eq _ _ hne, ← hlast] at hu
            simp only [Option.mem_def, Option.some.injEq] at hu
            subst hu
            exact h1
        · rw [candleTimes_dequeAppend]
          simp
      · rw [if_neg h1]
        by_cases h2 : c.time = t
        · rw [if_pos h2]
          apply ih
          · rw [candleTimes_dequeAppend]
            apply chainLt_append_singleton
            · exact chainLt_drop _ _ (by
                rw [show candleTimes dq.dropLast = (candleTimes dq).dropLast from by
                  simp [candleTimes]]
                exact chainLt_dropLast _ hc)
            · intro u hu
              have hne : (candleTimes dq.dropLast).drop
                  (if maxlen ≤ dq.dropLast.length then 1 else 0) ≠ [] := by
                intro hnil
                rw [hnil] at hu
                simp at hu
              rw [getLast?_drop_eq _ _ hne] at hu
              rw [show candleTimes dq.dropLast = (candleTimes dq).dropLast from by
                simp [candleTimes]] at hu
              rw [h2]
              exact chainLt_dropLast_last _ t hc hlast.symm u hu
          · rw [candleTimes_dequeAppend]
            simp [h2]
        · rw [if_neg h2]
          exact ih dq (some t) hc hlast

/-- C4: `OHLCCache.update` keeps stored candle times strictly increasing:
merging any fetched batch into a strictly-increasing cache yields a
strictly-increasing cache; a batch of at least two rows has its last row
dropped before merging; a candle strictly newer than the tail is appended;
and a candle with the tail's timestamp replaces the tail. -/
theorem C4_ohlc_cache_invariant :
    (∀ (maxlen : ℕ) (dq batch : List OHLCCandle),
      strictlyIncreasingTimes dq →
      strictlyIncreasingTimes (cacheUpdate maxlen dq batch)) ∧
    (∀ (maxlen : ℕ) (dq batch : List OHLCCandle), 2 ≤ batch.length →
      cacheUpdate maxlen dq batch
        = mergeCandles maxlen dq ((dq.getLast?).map OHLCCandle.time)
            batch.dropLast) ∧
    (∀ (maxlen : ℕ) (dq : List OHLCCandle) (t : ℤ) (c : OHLCCandle),
      t < c.time →
      mergeCandles maxlen dq (some t) [c] = dequeAppend maxlen dq c) ∧
    (∀ (maxlen : ℕ) (dq : List OHLCCandle) (c : OHLCCandle),
      mergeCandles maxlen dq (some c.time) [c]
        = dequeAppend maxlen dq.dropLast c) := by
  refine ⟨?_, ?_, ?_, ?_⟩
  · intro maxlen dq batch hc
    unfold strictlyIncreasingTimes at *
    simp only [cacheUpdate]
    apply mergeCandles_chain
    · exact hc
    · rw [candleTimes]
      exact (List.getLast?_map _ _).symm
  · intro maxlen dq batch h2
    simp only [cacheUpdate]
    rw [if_pos h2]
  · intro maxlen dq t c h
    simp only [mergeCandles]
    rw [if_pos h]
  · intro maxlen dq c
    simp only [mergeCandles]
    rw [if_neg (lt_irrefl c.time)]
    simp

/-- C4 witness: merging the batch `[200, 300]` (whose in-progress tail 300
is dropped) into a cache holding time 100 keeps times strictly
increasing. -/
theorem C4_ohlc_cache_invariant_witness :
    strictlyIncreasingTimes
      (cacheUpdate 200 [mkCandle 100 1] [mkCandle 200 2, mkCandle 300 3]) :=
  C4_ohlc_cache_invariant.1 200 [mkCandle 100 1]
    [mkCandle 200 2, mkCandle 300 3]
    (by simp [strictlyIncreasingTimes, candleTimes, mkCandle])

/-- C2 (code-bug evidence): RANGE_BOUND recommends `mean_reversion` and the
selector instantiates `MeanReversionStrategy` for it, but the class-name
mangling of `_get_strategy_name` renders the current strategy as
`meanreversion`, so the equality guard of `analyze_and_update_strategy`
(step 6 of the spec) can never fire for this family.  Three consecutive
RANGE_BOUND classifications against a current `MeanReversionStrategy` —
each recommending the current strategy — therefore leave the pending
counter at 1 then 2 instead of clearing it, and the third performs a
strategy switch back to the very same strategy. -/
theorem C2_same_strategy_confirmation_not_reset :
    recommendedStrategy MarketState.range_bound = "mean_reversion" ∧
    strategyName StratKind.meanReversion = "meanreversion" ∧
    selectStrategy MarketState.range_bound = StratKind.meanReversion ∧
    c2Step1.1.pending = some MarketState.range_bound ∧
    c2Step1.1.pendingConf = 1 ∧
    c2Step1.2 = false ∧
    c2Step2.1.pendingConf = 2 ∧
    c2Step2.2 = false ∧
    c2Step3.2 = true ∧
    c2Step3.1.current = StratKind.meanReversion := by decide

/-- C3 (code-bug evidence): three consecutive RANGE_BOUND classifications
against a current `macd` strategy, with switching allowed and
`confirmations_required = 3`, do perform the switch, yet the durable store's
`strategy_switches` table stays empty — `_switch_strategy` never calls
`record_strategy_switch`, while `record_strategy_switch` itself would append
exactly one row. -/
theorem C3_confirmed_switch_persists_no_row :
    c3Step3.2.2 = true ∧
    c3Step3.2.1.strategy_switches = [] ∧
    (∀ (store : TradingStore) (row : StrategySwitchRow),
      (recordStrategySwitch store row).strategy_switches
        = store.strategy_switches ++ [row]) :=
  ⟨by decide, by decide, fun store row => rfl⟩

end SpiceTrader
